import Mathlib

/-!
Verification of the Helix clinical-data validation-and-routing pipeline
(src/helix.py) against its natural-language specification.

The Python code is shallowly embedded: strings are Lean `String`s (or
`List Char` where character-level scanning matters), CSV files are modelled
as the row lists `csv.reader` yields together with the decode/IO failure
modes, the processed-file ledger is a `Finset String` plus the text persisted
to its sidecar file, and fallible Python calls return `Except`.

Scope notes on fidelity, recorded once here:
* Python's `int()`, `\d`, and `str.strip` also accept non-ASCII decimal
  digits / whitespace; the embedding restricts those character classes to
  ASCII, which covers every input the repository's data can contain.
* `re.IGNORECASE` is modelled as ASCII case folding.
-/

namespace Helix

/-! ## Character helpers -/

/-- ASCII lower-casing, the case folding used by `re.IGNORECASE` on the
ASCII pattern characters of this program. -/
def lowerAscii (c : Char) : Char :=
  if 'A' ≤ c ∧ c ≤ 'Z' then Char.ofNat (c.toNat + 32) else c

/-- One pattern character matched case-insensitively against one input
character. -/
def charCaseless (a b : Char) : Bool := lowerAscii a = lowerAscii b

/-- Numeric value of an ASCII digit. -/
def digitVal (c : Char) : Nat := c.toNat - '0'.toNat

/-- ASCII whitespace stripped by Python's `int()` around a numeric literal. -/
def isPySpace (c : Char) : Bool :=
  c = ' ' ∨ c = '\t' ∨ c = '\n' ∨ c = '\r' ∨ c = '\x0b' ∨ c = '\x0c'

/-! ## Python `int()` (src/helix.py line 268 `int(dosage)`)

`int(s)` strips surrounding whitespace, allows one leading sign, and then
digits with single underscores permitted only between two digits. -/

/-- Digits continuing a number already begun: `(('_')? digit)*`. An
underscore must be followed by a digit and may not end the literal. -/
def pyDigitsTail (acc : Nat) : List Char → Option Nat
  | [] => some acc
  | '_' :: rest =>
    match rest with
    | c :: rest2 => if c.isDigit then pyDigitsTail (acc * 10 + digitVal c) rest2 else none
    | [] => none
  | c :: rest => if c.isDigit then pyDigitsTail (acc * 10 + digitVal c) rest else none

/-- The digit part of a Python integer literal: at least one digit, then
`pyDigitsTail`. -/
def pyDigits : List Char → Option Nat
  | c :: rest => if c.isDigit then pyDigitsTail (digitVal c) rest else none
  | [] => none

/-- Whitespace stripped from both ends, as `int()` does before parsing. -/
def pyStrip (cs : List Char) : List Char :=
  ((cs.dropWhile isPySpace).reverse.dropWhile isPySpace).reverse

/-- Python's `int(s)`: `some` value on success, `none` where `int()` raises
`ValueError`. -/
def pyInt (s : String) : Option Int :=
  match pyStrip s.toList with
  | '+' :: rest => (pyDigits rest).map (fun n => (n : Int))
  | '-' :: rest => (pyDigits rest).map (fun n => -(n : Int))
  | rest => (pyDigits rest).map (fun n => (n : Int))

/-! ## `datetime.strptime(s, "%Y-%m-%d")` (src/helix.py lines 278-279)

CPython compiles the format to the anchored regex
`\d\d\d\d-(1[0-2]|0[1-9]|[1-9])-(3[01]|[12]\d|0[1-9]|[1-9])` (alternatives
tried in that order, with backtracking), then builds a `datetime`, which
additionally requires `1 <= year` and a day that exists in the month. -/

/-- Exactly `n` digits, accumulated into a value, returning the rest. -/
def digitsN : Nat → Nat → List Char → Option (Nat × List Char)
  | 0, acc, cs => some (acc, cs)
  | n + 1, acc, c :: cs => if c.isDigit then digitsN n (acc * 10 + digitVal c) cs else none
  | _ + 1, _, [] => none

/-- The ways `(1[0-2]|0[1-9]|[1-9])` can match a prefix, in regex order. -/
def monthAlts : List Char → List (Nat × List Char)
  | c1 :: c2 :: rest =>
    (if c1 = '1' ∧ '0' ≤ c2 ∧ c2 ≤ '2' then [(10 + digitVal c2, rest)] else []) ++
    (if c1 = '0' ∧ '1' ≤ c2 ∧ c2 ≤ '9' then [(digitVal c2, rest)] else []) ++
    (if '1' ≤ c1 ∧ c1 ≤ '9' then [(digitVal c1, c2 :: rest)] else [])
  | [c1] => if '1' ≤ c1 ∧ c1 ≤ '9' then [(digitVal c1, [])] else []
  | [] => []

/-- The ways `(3[01]|[12]\d|0[1-9]|[1-9])` can match a prefix, in regex
order. -/
def dayAlts : List Char → List (Nat × List Char)
  | c1 :: c2 :: rest =>
    (if c1 = '3' ∧ ('0' ≤ c2 ∧ c2 ≤ '1') then [(30 + digitVal c2, rest)] else []) ++
    (if ('1' ≤ c1 ∧ c1 ≤ '2') ∧ c2.isDigit then [(10 * digitVal c1 + digitVal c2, rest)] else []) ++
    (if c1 = '0' ∧ '1' ≤ c2 ∧ c2 ≤ '9' then [(digitVal c2, rest)] else []) ++
    (if '1' ≤ c1 ∧ c1 ≤ '9' then [(digitVal c1, c2 :: rest)] else [])
  | [c1] => if '1' ≤ c1 ∧ c1 ≤ '9' then [(digitVal c1, [])] else []
  | [] => []

/-- First alternative on which the continuation succeeds: the regex
engine's backtracking over an alternation. -/
def firstSome : List α → (α → Option β) → Option β
  | [], _ => none
  | a :: rest, f =>
    match f a with
    | some b => some b
    | none => firstSome rest f

/-- The anchored `%Y-%m-%d` regex match: year, month, day of the full
string. -/
def parseYMD (cs : List Char) : Option (Nat × Nat × Nat) :=
  match digitsN 4 0 cs with
  | none => none
  | some (y, rest) =>
    match rest with
    | '-' :: r2 =>
      firstSome (monthAlts r2) (fun md =>
        match md.2 with
        | '-' :: r4 =>
          firstSome (dayAlts r4) (fun dd =>
            if dd.2 = [] then some (y, md.1, dd.1) else none)
        | _ => none)
    | _ => none

/-- Gregorian leap year, as `datetime` uses. -/
def isLeap (y : Nat) : Bool := y % 4 = 0 ∧ (y % 100 ≠ 0 ∨ y % 400 = 0)

/-- Days in a month, as `datetime` validates. -/
def daysInMonth (y m : Nat) : Nat :=
  if m = 2 then (if isLeap y then 29 else 28)
  else if m = 4 ∨ m = 6 ∨ m = 9 ∨ m = 11 then 30
  else 31

/-- `datetime.strptime(s, "%Y-%m-%d")`: `some (y, m, d)` on success, `none`
where it raises `ValueError`. -/
def parseDate (s : String) : Option (Nat × Nat × Nat) :=
  match parseYMD s.toList with
  | some (y, m, d) =>
    if 1 ≤ y ∧ 1 ≤ d ∧ d ≤ daysInMonth y m then some (y, m, d) else none
  | none => none

/-- `datetime` comparison: lexicographic on (year, month, day). -/
def dateLt (a b : Nat × Nat × Nat) : Bool :=
  decide (a.1 < b.1 ∨ (a.1 = b.1 ∧ (a.2.1 < b.2.1 ∨ (a.2.1 = b.2.1 ∧ a.2.2 < b.2.2))))

/-! ## Record validation (src/helix.py `_validate_csv_content`, lines 246-304)

A data row with exactly 9 fields is unpacked into the source's nine local
variables; shorter or longer rows are reported and skipped before
unpacking. -/

/-- The nine fields of one data row, named as the unpacking on
src/helix.py lines 257-258. -/
structure Rec9 where
  patient_id : String
  trial_code : String
  drug_code : String
  dosage : String
  start_date : String
  end_date : String
  outcome : String
  side_effects : String
  analyst : String
deriving DecidableEq, Repr

/-- `some` fields when the row has exactly 9 entries (the unpack after the
`len(row) != 9` check), `none` otherwise. -/
def rowFields? : List String → Option Rec9
  | [a, b, c, d, e, f, g, h, i] => some ⟨a, b, c, d, e, f, g, h, i⟩
  | _ => none

/-- The `not all([...])` check on lines 261-264: any empty field makes the
row incomplete. -/
def missingErrors (r : Rec9) : List String :=
  if r.patient_id = "" ∨ r.trial_code = "" ∨ r.drug_code = "" ∨ r.dosage = "" ∨
     r.start_date = "" ∨ r.end_date = "" ∨ r.outcome = "" ∨ r.side_effects = "" ∨
     r.analyst = ""
  then ["Missing required fields"] else []

/-- The dosage check on lines 266-274: `int(dosage)` must succeed and be
positive. -/
def dosageErrors (dosage : String) : List String :=
  match pyInt dosage with
  | some dosage_val =>
    if dosage_val ≤ 0 then ["Dosage must be positive integer, got '" ++ dosage ++ "'"] else []
  | none => ["Non-numeric dosage: '" ++ dosage ++ "'"]

/-- The date checks on lines 276-285: both dates must parse as
`%Y-%m-%d` (a failure of either yields the single format message, and the
ordering is then not checked), and the end may not precede the start. -/
def dateErrors (start_date end_date : String) : List String :=
  match parseDate start_date with
  | none => ["Invalid date format (expected YYYY-MM-DD)"]
  | some start_dt =>
    match parseDate end_date with
    | none => ["Invalid date format (expected YYYY-MM-DD)"]
    | some end_dt =>
      if dateLt end_dt start_dt then
        ["EndDate (" ++ end_date ++ ") before StartDate (" ++ start_date ++ ")"]
      else []

/-- The outcome check on lines 287-291. -/
def outcomeErrors (outcome : String) : List String :=
  if outcome = "Improved" ∨ outcome = "No Change" ∨ outcome = "Worsened" then []
  else ["Invalid outcome '" ++ outcome ++ "'. Must be one of: Improved, No Change, Worsened"]

/-- The duplicate key of line 294: the four identity fields joined by
underscores into one string. -/
def recordKey (r : Rec9) : String :=
  r.patient_id ++ "_" ++ r.trial_code ++ "_" ++ r.drug_code ++ "_" ++ r.start_date

/-- The duplicate check on lines 293-299 (the branch that reports). -/
def dupErrors (seen : List String) (key : String) : List String :=
  if key ∈ seen then ["Duplicate record"] else []

/-- All `record_errors` of one 9-field row, in the order the loop body
appends them: missing fields, dosage, dates, outcome, duplicate. -/
def recordErrors (seen : List String) (r : Rec9) : List String :=
  missingErrors r ++ dosageErrors r.dosage ++ dateErrors r.start_date r.end_date ++
    outcomeErrors r.outcome ++ dupErrors seen (recordKey r)

/-- How one row updates `seen_records`: a 9-field row's key is added when
not already present; rows of other widths `continue` before the check. -/
def stepSeen (seen : List String) (row : List String) : List String :=
  match rowFields? row with
  | some r => if recordKey r ∈ seen then seen else recordKey r :: seen
  | none => seen

/-- The scan loop over data rows (lines 246-304): accumulates the `errors`
entries in row order and the `valid_records` list. `row_num` is the 1-based
row counter (2 for the first data row). -/
def scanRows : List (List String) → Nat → List String → List String × List (List String)
  | [], _, _ => ([], [])
  | row :: rest, row_num, seen =>
    let res := scanRows rest (row_num + 1) (stepSeen seen row)
    match rowFields? row with
    | none =>
      (("Row " ++ toString row_num ++ ": Expected 9 fields, got " ++ toString row.length)
        :: res.1, res.2)
    | some r =>
      let record_errors := recordErrors seen r
      if record_errors = [] then (res.1, row :: res.2)
      else
        (("Row " ++ toString row_num ++ ": " ++ String.intercalate "; " record_errors)
          :: res.1, res.2)

/-! ## Whole-file content validation (`_validate_csv_content`, lines 209-333) -/

/-- The fixed header schema of lines 224-225. -/
def expected_fields : List String :=
  ["PatientID", "TrialCode", "DrugCode", "Dosage_mg", "StartDate", "EndDate",
   "Outcome", "SideEffects", "Analyst"]

/-- The message of line 227, with Python's rendering of the schema list. -/
def invalid_header_message : String :=
  "Invalid header. Expected 9 fields: ['PatientID', 'TrialCode', 'DrugCode', " ++
  "'Dosage_mg', 'StartDate', 'EndDate', 'Outcome', 'SideEffects', 'Analyst']"

/-- What opening and reading a file can yield: the parsed rows, a
`UnicodeDecodeError`, or another `Exception` with a message. -/
inductive FileContent where
  | rows (records : List (List String))
  | notUtf8
  | readError (msg : String)
deriving DecidableEq

/-- The exceptions the `try` on lines 218-333 can catch. -/
inductive PyExc where
  | unicodeDecodeError
  | other (msg : String)
deriving DecidableEq

/-- Opening, decoding and parsing the file: the fallible part of the body. -/
def readRows : FileContent → Except PyExc (List (List String))
  | .rows records => .ok records
  | .notUtf8 => .error .unicodeDecodeError
  | .readError m => .error (.other m)

/-- Validation of successfully decoded rows: header check (lines 222-237),
then the row scan, then the verdict of lines 326-328. The result triple is
the source's `(is_valid, errors, record_count)`. -/
def validateDecoded (records : List (List String)) : Bool × List String × Nat :=
  match records with
  | [] => (false, ["File is empty"], 0)
  | header :: dataRows =>
    if header ≠ expected_fields then (false, [invalid_header_message], 0)
    else
      let res := scanRows dataRows 2 []
      if res.1 = [] then (true, [], res.2.length)
      else (false, res.1, res.2.length)

/-- The `except` handlers of lines 330-333. -/
def handleReadExc : PyExc → Bool × List String × Nat
  | .unicodeDecodeError => (false, ["File is not valid UTF-8 encoded CSV"], 0)
  | .other m => (false, ["File read error: " ++ m], 0)

/-- `_validate_csv_content`: the body's fallible read wrapped in the
`try`/`except` that converts every exception into a verdict. -/
def validate_csv_content (content : FileContent) : Bool × List String × Nat :=
  match readRows content with
  | .ok records => validateDecoded records
  | .error e => handleReadExc e

/-! ## Filename matcher (`_validate_filename_pattern`, lines 197-207)

`re.match(r'^CLINICALDATA_\d{14}\.CSV$', filename, re.IGNORECASE)`.
`re.match` anchors at the start; `$` matches at the end of the string or
just before a newline that ends the string, so a single trailing `'\n'` is
also accepted. -/

/-- Match a literal pattern piece case-insensitively at the front,
returning the rest of the input. -/
def stripCaseless : List Char → List Char → Option (List Char)
  | [], cs => some cs
  | _ :: _, [] => none
  | p :: ps, c :: cs => if charCaseless c p then stripCaseless ps cs else none

/-- Match `\d{n}` at the front, returning the rest of the input. -/
def takeDigitsRe : Nat → List Char → Option (List Char)
  | 0, cs => some cs
  | _ + 1, [] => none
  | n + 1, c :: cs => if c.isDigit then takeDigitsRe n cs else none

/-- Python's `$`: true at the end of the input, or just before a final
newline. -/
def pyDollar (rest : List Char) : Bool := rest = [] ∨ rest = ['\n']

/-- The anchored pattern with a parameterised end anchor. -/
def matchesCore (cs : List Char) (endAnchor : List Char → Bool) : Bool :=
  match stripCaseless "CLINICALDATA_".toList cs with
  | none => false
  | some r1 =>
    match takeDigitsRe 14 r1 with
    | none => false
    | some r2 =>
      match stripCaseless ".CSV".toList r2 with
      | none => false
      | some r3 => endAnchor r3

/-- `_validate_filename_pattern`: whether `re.match` succeeds. -/
def validate_filename_pattern (filename : String) : Bool :=
  matchesCore filename.toList pyDollar

/-- Modelled from the spec: "name must match, case-insensitively, the
pattern literal prefix CLINICALDATA_, then exactly 14 decimal digits, then
literal .CSV, anchored at both ends (no extra characters before/after)".
Identical to the code's matcher except that the end anchor admits nothing
after the extension. -/
def specFilenameMatchL (cs : List Char) : Bool :=
  matchesCore cs List.isEmpty

/-- String form of `specFilenameMatchL`. -/
def specFilenameMatch (s : String) : Bool := specFilenameMatchL s.toList

/-- Case-insensitive equality of two character lists (same length,
`charCaseless` pointwise). -/
def caselessEqList : List Char → List Char → Bool
  | [], [] => true
  | a :: as, b :: bs => charCaseless a b && caselessEqList as bs
  | _, _ => false

/-! ## Archive naming (`process_selected_files`, lines 413-418)

`base_name = filename.replace('.CSV', '').replace('.csv', '')` and
`archive_filename = f"{base_name}_{current_date}.CSV"`. `str.replace`
deletes every non-overlapping occurrence, scanning left to right. -/

/-- Worker for `removeAll` with explicit fuel; each step consumes at least
one input character, so fuel equal to the input length never runs out. -/
def removeAllGo (pat : List Char) : Nat → List Char → List Char
  | _, [] => []
  | 0, s => s
  | fuel + 1, c :: rest =>
    if pat ≠ [] ∧ pat.isPrefixOf (c :: rest) then
      removeAllGo pat fuel (rest.drop (pat.length - 1))
    else c :: removeAllGo pat fuel rest

/-- Python's `s.replace(pat, '')` for a non-empty `pat`: delete each
leftmost occurrence and resume after it. -/
def removeAll (pat : List Char) (s : List Char) : List Char :=
  removeAllGo pat s.length s

/-- The archive name computed on lines 415-417. -/
def archive_filename (filename : List Char) (current_date : List Char) : List Char :=
  let base_name := removeAll ".csv".toList (removeAll ".CSV".toList filename)
  base_name ++ "_".toList ++ current_date ++ ".CSV".toList

/-! ## Processed-file ledger (lines 100-112)

State: the in-memory set `processed_files` and the text persisted to
`processed_files.txt`. `_save_processed_file` adds the name and rewrites
the file as `"\n".join(sorted(set))`; `_load_processed_files` rebuilds the
set from `read_text().splitlines()` if the file exists, else starts
empty. -/

/-- The characters Python's `str.splitlines` treats as line boundaries
(besides the two-character `"\r\n"`). -/
def isLineBreak (c : Char) : Bool :=
  c = '\n' ∨ c = '\r' ∨ c = '\x0b' ∨ c = '\x0c' ∨ c = '\x1c' ∨ c = '\x1d' ∨
  c = '\x1e' ∨ c = '\x85' ∨ c = '\u2028' ∨ c = '\u2029'

/-- Worker for `str.splitlines`: `acc` holds the current line reversed; a
final unterminated line is still produced, a trailing terminator adds no
empty line. -/
def splitlinesAux : List Char → List Char → List (List Char)
  | [], acc => if acc = [] then [] else [acc.reverse]
  | '\r' :: '\n' :: rest, acc => acc.reverse :: splitlinesAux rest []
  | c :: rest, acc =>
    if isLineBreak c then acc.reverse :: splitlinesAux rest []
    else splitlinesAux rest (c :: acc)

/-- Python's `str.splitlines`. -/
def pySplitlines (s : String) : List String :=
  (splitlinesAux s.data []).map (fun l => String.mk l)

/-- Python's `"\n".join`. -/
def pyJoinNewline : List String → String
  | [] => ""
  | [x] => x
  | x :: rest => x ++ "\n" ++ pyJoinNewline rest

/-- The sidecar file text written on every mutation: the full set, sorted,
one name per line (line 112). -/
def saveText (processed_files : Finset String) : String :=
  pyJoinNewline (processed_files.sort (· ≤ ·))

/-- `_save_processed_file`: the updated set and the rewritten file text. -/
def mark_processed (processed_files : Finset String) (filename : String) :
    Finset String × String :=
  let s := insert filename processed_files
  (s, saveText s)

/-- `_load_processed_files`: `none` models a missing sidecar file. -/
def load_processed (fileText : Option String) : Finset String :=
  match fileText with
  | some t => (pySplitlines t).toFinset
  | none => ∅

/-! ## Error reporter (`_generate_guid` lines 114-154, `_log_api_failure`
lines 156-163, and the nested `_log_error` lines 166-195)

Two slips in the source matter here: the loop header
`for attempt in range(max_retries)` reads a name, `max_retries`, that is
bound nowhere in scope, and the `def _log_error` on line 166 is indented
inside the body of `_log_api_failure`, so it defines a local function of
that method and never becomes an attribute of the class. -/

/-- A Python name-resolution or attribute-lookup failure. -/
inductive PyError where
  | nameError (name : String)
  | attributeError (name : String)
deriving DecidableEq

/-- The names visible when `range(max_retries)` on line 118 is evaluated:
the parameter and the one local assigned before the loop.  `attempt` is
bound by the loop only after `range(...)` evaluates, and none of the
module-level names (imports and the three classes and `main`) is
`max_retries` either, so the environment holds no binding for it. -/
def generate_guid_env : List (String × Nat) := [("self", 0), ("api_url", 0)]

/-- Python name resolution against an environment. -/
def lookupEnv (env : List (String × Nat)) (name : String) : Except PyError Nat :=
  match env.find? (fun p => p.1 = name) with
  | some p => .ok p.2
  | none => .error (.nameError name)

/-- The retry loop of lines 118-149 with the fallback of lines 151-154,
were the loop bound available: `api attempt` is the GUID the external
service returns on that attempt, `none` an attempt that fails. -/
def guidAttempts (api : Nat → Option String) (fallback_guid : String) : Nat → String
  | 0 => fallback_guid
  | n + 1 =>
    match api n with
    | some guid => guid
    | none => guidAttempts api fallback_guid n

/-- `_generate_guid`: resolving `max_retries` for the loop header comes
first, so the call raises `NameError` before any attempt is made. -/
def generate_guid (api : Nat → Option String) (fallback_guid : String) :
    Except PyError String :=
  match lookupEnv generate_guid_env "max_retries" with
  | .error e => .error e
  | .ok max_retries => .ok (guidAttempts api fallback_guid max_retries)

/-- The attributes class `ClinicalDataValidator` actually binds: the `def`s
at class-body indentation in src/helix.py.  `_log_error` (line 166) is
absent — it is nested one level deeper, inside `_log_api_failure`. -/
def validator_class_methods : List String :=
  ["__init__", "_load_processed_files", "_save_processed_file", "_generate_guid",
   "_log_api_failure", "_validate_filename_pattern", "_validate_csv_content",
   "validate_selected_files", "process_selected_files"]

/-- The body of the (unreachable) `_log_error` on lines 166-195: obtain a
GUID, classify its source, build the log line, return `(guid, entry)`. -/
def log_error_body (api : Nat → Option String) (fallback_guid : String)
    (timestamp filename error_details : String) : Except PyError (String × String) := do
  let guid ← generate_guid api fallback_guid
  let is_fallback := !(guid.startsWith "API:")
  let guid_source := if is_fallback then "Local Fallback" else "API"
  let guid2 := if is_fallback then guid else guid.drop 4
  let log_entry := "[" ++ timestamp ++ "] GUID: " ++ guid2 ++ " | Source: " ++ guid_source ++
    " | File: " ++ filename ++ " | Error: " ++ error_details ++ "\n"
  .ok (guid2, log_entry)

/-- A call `self._log_error(filename, error_details)` as the router makes
on lines 404, 426 and 441: the attribute lookup on the instance falls back
to the class attributes, and only then would the body run. -/
def log_error_call (api : Nat → Option String) (fallback_guid : String)
    (timestamp filename error_details : String) : Except PyError (String × String) :=
  if "_log_error" ∈ validator_class_methods then
    log_error_body api fallback_guid timestamp filename error_details
  else .error (.attributeError "_log_error")

/-! ## Routing one file (`process_selected_files`, lines 380-457)

The loop body for one file, with the file-system and ledger operations
recorded as events.  Downloads and renames are modelled as succeeding; the
`self._log_error` calls raise `AttributeError` (see above), which the
enclosing `except` on line 449 catches, so both rejection paths end as the
fatal-error case after the move to the error store, with no ledger
change. -/

/-- The observable file-system, ledger and reporter operations. -/
inductive Event where
  | download (name : String)
  | moveToError (name : String)
  | moveToArchive (name : String) (archiveName : String)
  | markProcessed (name : String)
deriving DecidableEq

/-- The terminal state of one routed file. -/
inductive Outcome where
  | skipped
  | archived (record_count : Nat)
  | fatalError
deriving DecidableEq

/-- One iteration of the routing loop: outcome, events in order, and the
updated ledger. -/
def processFile (processed_files : Finset String) (name : String)
    (content : FileContent) (current_date : List Char) :
    Outcome × List Event × Finset String :=
  if name ∈ processed_files then (.skipped, [], processed_files)
  else if validate_filename_pattern name = false then
    (.fatalError, [.download name, .moveToError name], processed_files)
  else
    let v := validate_csv_content content
    if v.1 then
      let archiveName := String.mk (archive_filename name.toList current_date)
      (.archived v.2.2,
       [.download name, .moveToArchive name archiveName, .markProcessed name],
       insert name processed_files)
    else
      (.fatalError, [.download name, .moveToError name], processed_files)

/-! ## Derived observation points used by the theorems -/

/-- The duplicate key a row defines, when it has 9 fields. -/
def recordKeyOfRow (row : List String) : String :=
  match rowFields? row with
  | some r => recordKey r
  | none => ""

/-- The `record_errors` the loop body collects for one row (empty for rows
that are not 9 fields wide, which `continue` before the checks). -/
def recordErrorsOfRow (seen : List String) (row : List String) : List String :=
  match rowFields? row with
  | some r => recordErrors seen r
  | none => []

/-- The `seen_records` state after the first `i` data rows. -/
def seenBefore (rows : List (List String)) (i : Nat) : List String :=
  (rows.take i).foldl stepSeen []

/-! ## C1 — the error-reporting call -/

/-- C1: the spec requires `report(filename, summary)` to be total, falling
back to a local identifier and appending exactly one log entry, with the
routing core never observing a failure.  The code cannot deliver this:
`self._log_error(...)` raises `AttributeError` because the `def` on
line 166 of src/helix.py is nested inside `_log_api_failure` and never
becomes a class attribute, and `_generate_guid` would in any case raise
`NameError` on the unbound loop bound `max_retries` (line 118) before
reaching its fallback.  Every error-report call therefore fails, for every
behaviour of the external identifier service. -/
theorem error_report_call_always_raises (api : Nat → Option String)
    (fallback_guid timestamp filename error_details : String) :
    log_error_call api fallback_guid timestamp filename error_details
      = .error (.attributeError "_log_error") ∧
    generate_guid api fallback_guid = .error (.nameError "max_retries") :=
  ⟨rfl, rfl⟩

/-! ## C5 — verdict invariant -/

/-- C5: for every file content the verdict satisfies `is_valid = true` iff
the violations list is empty, and a file holding exactly the correct
9-field header and no data rows is valid with zero valid records and no
violations. -/
theorem verdict_valid_iff_no_violations (content : FileContent) :
    ((validate_csv_content content).1 = true ↔ (validate_csv_content content).2.1 = []) ∧
    validate_csv_content (.rows [expected_fields]) = (true, [], 0) := by
  refine ⟨?_, by decide⟩
  cases content with
  | rows records =>
    cases records with
    | nil => simp [validate_csv_content, readRows, validateDecoded]
    | cons header dataRows =>
      by_cases h : header = expected_fields
      · by_cases h2 : (scanRows dataRows 2 []).1 = [] <;>
          simp [validate_csv_content, readRows, validateDecoded, h, h2]
      · simp [validate_csv_content, readRows, validateDecoded, h]
  | notUtf8 => simp [validate_csv_content, readRows, handleReadExc]
  | readError m => simp [validate_csv_content, readRows, handleReadExc]

/-! ## C6 — header mismatch short-circuits -/

/-- C6: whenever the first row differs (field-by-field) from the fixed
9-field schema, content validation returns at once: invalid, exactly the
single header violation, zero valid records, and — the verdict being
independent of the data rows — nothing below the header is scanned. -/
theorem header_mismatch_short_circuits (header : List String)
    (dataRows : List (List String)) (h : header ≠ expected_fields) :
    validate_csv_content (.rows (header :: dataRows))
      = (false, [invalid_header_message], 0) := by
  simp [validate_csv_content, readRows, validateDecoded, h]

/-- Witness for C6 at a header with one renamed field and a malformed data
row below it, which produces no row-level violation. -/
theorem header_mismatch_short_circuits_witness :
    validate_csv_content (.rows
      (["PatientID", "WrongField", "DrugCode", "Dosage_mg", "StartDate", "EndDate",
        "Outcome", "SideEffects", "Analyst"] ::
       [["P1", "T1", "D1", "-5", "2024-01-10", "2024-01-01", "Maybe", "None", "A"]]))
      = (false, [invalid_header_message], 0) :=
  header_mismatch_short_circuits _ _ (by decide)

/-! ## C7 — content validation never raises -/

/-- C7: every exception of the fallible read is caught and converted into
verdict data — an invalid verdict with exactly one violation and zero
valid records — and the two read failure modes yield their specific
messages. -/
theorem content_validation_never_raises (content : FileContent) :
    (∀ e, readRows content = .error e →
      validate_csv_content content = handleReadExc e ∧
      (handleReadExc e).1 = false ∧ (handleReadExc e).2.1.length = 1 ∧
      (handleReadExc e).2.2 = 0) ∧
    validate_csv_content .notUtf8 = (false, ["File is not valid UTF-8 encoded CSV"], 0) ∧
    (∀ msg, validate_csv_content (.readError msg)
      = (false, ["File read error: " ++ msg], 0)) := by
  refine ⟨?_, rfl, fun msg => rfl⟩
  intro e he
  refine ⟨?_, ?_⟩
  · unfold validate_csv_content
    rw [he]
  · cases e <;> simp [handleReadExc]

/-- Witness for C7 at non-UTF-8 content. -/
theorem content_validation_never_raises_witness :
    validate_csv_content .notUtf8 = handleReadExc .unicodeDecodeError ∧
    (handleReadExc PyExc.unicodeDecodeError).1 = false ∧
    (handleReadExc PyExc.unicodeDecodeError).2.1.length = 1 ∧
    (handleReadExc PyExc.unicodeDecodeError).2.2 = 0 :=
  (content_validation_never_raises .notUtf8).1 .unicodeDecodeError rfl

/-! ## C9 — already-processed files are skipped untouched -/

/-- C9: a file whose name is in the ledger is routed to `Skipped` with no
recorded operation at all — no download, no move, no error report — and
the ledger is returned unchanged. -/
theorem skipped_file_no_operations (processed_files : Finset String)
    (name : String) (content : FileContent) (current_date : List Char)
    (h : name ∈ processed_files) :
    processFile processed_files name content current_date
      = (.skipped, [], processed_files) := by
  simp [processFile, h]

/-- Witness for C9 at a concrete one-element ledger. -/
theorem skipped_file_no_operations_witness :
    processFile {"CLINICALDATA_20240101120000.CSV"} "CLINICALDATA_20240101120000.CSV"
      (.rows []) [] = (.skipped, [], {"CLINICALDATA_20240101120000.CSV"}) :=
  skipped_file_no_operations _ _ _ _ (by simp)

/-! ## C10 — the dosage check accepts everything Python's `int()` accepts -/

/-- C10: for a 9-field row whose dosage field `int()` parses to a positive
value — including strings with surrounding whitespace, an explicit leading
sign, or underscore separators — no dosage violation is emitted: the
dosage part of `record_errors` is empty and the row's violations reduce to
the remaining checks. -/
theorem dosage_check_accepts_python_int (seen : List String) (r : Rec9) (v : Int)
    (hparse : pyInt r.dosage = some v) (hpos : 0 < v) :
    dosageErrors r.dosage = [] ∧
    recordErrors seen r =
      missingErrors r ++ dateErrors r.start_date r.end_date ++
        outcomeErrors r.outcome ++ dupErrors seen (recordKey r) := by
  have hd : dosageErrors r.dosage = [] := by
    unfold dosageErrors
    rw [hparse]
    simp
    omega
  refine ⟨hd, ?_⟩
  unfold recordErrors
  rw [hd]
  simp

/-- Witness for C10 at the three int-literal shapes the claim names:
surrounding whitespace, explicit plus sign, underscore separator. -/
theorem dosage_check_accepts_python_int_witness :
    dosageErrors " 100 " = [] ∧ dosageErrors "+5" = [] ∧ dosageErrors "1_0" = [] :=
  ⟨(dosage_check_accepts_python_int []
      ⟨"P", "T", "D", " 100 ", "2024-01-01", "2024-01-02", "Improved", "None", "A"⟩
      100 (by decide) (by decide)).1,
   (dosage_check_accepts_python_int []
      ⟨"P", "T", "D", "+5", "2024-01-01", "2024-01-02", "Improved", "None", "A"⟩
      5 (by decide) (by decide)).1,
   (dosage_check_accepts_python_int []
      ⟨"P", "T", "D", "1_0", "2024-01-01", "2024-01-02", "Improved", "None", "A"⟩
      10 (by decide) (by decide)).1⟩

/-! ## C3 — duplicate detection

The code's duplicate key is not the 4-tuple `(patientId, trialCode,
drugCode, startDate)` but the single string
`patientId_trialCode_drugCode_startDate` (line 294), and underscore-joining
is not injective: distinct tuples can collide. -/

/-- Every message of `missingErrors` has length over 16 — in particular it
is never the 16-character string "Duplicate record". -/
theorem mem_missingErrors_length {r : Rec9} {m : String}
    (h : m ∈ missingErrors r) : 16 < m.length := by
  unfold missingErrors at h
  split at h
  · simp only [List.mem_singleton] at h
    subst h
    decide
  · simp at h

/-- Every message of `dosageErrors` has length over 16. -/
theorem mem_dosageErrors_length {dosage m : String}
    (h : m ∈ dosageErrors dosage) : 16 < m.length := by
  rcases hp : pyInt dosage with _ | v
  · simp only [dosageErrors, hp, List.mem_singleton] at h
    subst h
    rw [String.length_append, String.length_append]
    have h1 : ("Non-numeric dosage: '" : String).length = 21 := by decide
    omega
  · simp only [dosageErrors, hp] at h
    split at h
    · simp only [List.mem_singleton] at h
      subst h
      rw [String.length_append, String.length_append]
      have h1 : ("Dosage must be positive integer, got '" : String).length = 38 := by decide
      omega
    · simp at h

/-- Every message of `dateErrors` has length over 16. -/
theorem mem_dateErrors_length {start_date end_date m : String}
    (h : m ∈ dateErrors start_date end_date) : 16 < m.length := by
  have hfmt : ("Invalid date format (expected YYYY-MM-DD)" : String).length = 41 := by decide
  rcases hs : parseDate start_date with _ | s
  · simp only [dateErrors, hs, List.mem_singleton] at h
    subst h
    omega
  · rcases he : parseDate end_date with _ | e
    · simp only [dateErrors, hs, he, List.mem_singleton] at h
      subst h
      omega
    · simp only [dateErrors, hs, he] at h
      split at h
      · simp only [List.mem_singleton] at h
        subst h
        rw [String.length_append, String.length_append, String.length_append]
        have h1 : ("EndDate (" : String).length = 9 := by decide
        have h2 : (") before StartDate (" : String).length = 20 := by decide
        omega
      · simp at h

/-- Every message of `outcomeErrors` has length over 16. -/
theorem mem_outcomeErrors_length {outcome m : String}
    (h : m ∈ outcomeErrors outcome) : 16 < m.length := by
  unfold outcomeErrors at h
  split at h
  · simp at h
  · simp only [List.mem_singleton] at h
    subst h
    rw [String.length_append, String.length_append]
    have h1 : ("Invalid outcome '" : String).length = 17 := by decide
    omega

/-- Inside one row's `record_errors`, the "Duplicate record" entry appears
exactly when the row's joined key was already seen. -/
theorem dup_mem_recordErrors (seen : List String) (r : Rec9) :
    "Duplicate record" ∈ recordErrors seen r ↔ recordKey r ∈ seen := by
  have hlen : ("Duplicate record" : String).length = 16 := by decide
  unfold recordErrors
  simp only [List.mem_append]
  constructor
  · rintro ((((h | h) | h) | h) | h)
    · exact absurd hlen (by have := mem_missingErrors_length h; omega)
    · exact absurd hlen (by have := mem_dosageErrors_length h; omega)
    · exact absurd hlen (by have := mem_dateErrors_length h; omega)
    · exact absurd hlen (by have := mem_outcomeErrors_length h; omega)
    · unfold dupErrors at h
      split at h
      · assumption
      · simp at h
  · intro h
    right
    unfold dupErrors
    rw [if_pos h]
    simp

/-- Membership in the seen-set after one row: the key of a 9-field row is
added, other rows leave it unchanged. -/
theorem mem_stepSeen (seen : List String) (row : List String) (k : String) :
    k ∈ stepSeen seen row ↔
      k ∈ seen ∨ ∃ r, rowFields? row = some r ∧ recordKey r = k := by
  rcases h : rowFields? row with _ | r
  · simp [stepSeen, h]
  · simp only [stepSeen, h]
    by_cases hk : recordKey r ∈ seen
    · rw [if_pos hk]
      constructor
      · exact Or.inl
      · rintro (hs | ⟨r', hr', hkey⟩)
        · exact hs
        · cases Option.some.inj hr'
          exact hkey ▸ hk
    · rw [if_neg hk]
      simp only [List.mem_cons]
      constructor
      · rintro (he | hs)
        · exact Or.inr ⟨r, rfl, he.symm⟩
        · exact Or.inl hs
      · rintro (hs | ⟨r', hr', hkey⟩)
        · exact Or.inr hs
        · cases Option.some.inj hr'
          exact Or.inl hkey.symm

/-- Membership in the seen-set after a list of rows: exactly the keys of
the 9-field rows among them, plus what was already seen. -/
theorem mem_foldl_stepSeen (rows : List (List String)) (seen : List String) (k : String) :
    k ∈ rows.foldl stepSeen seen ↔
      k ∈ seen ∨ ∃ row ∈ rows, ∃ r, rowFields? row = some r ∧ recordKey r = k := by
  induction rows generalizing seen with
  | nil => simp
  | cons row rest ih =>
    rw [List.foldl_cons, ih, mem_stepSeen]
    constructor
    · rintro ((hs | ⟨r, hr, hk⟩) | ⟨row', hrow', hr'⟩)
      · exact Or.inl hs
      · exact Or.inr ⟨row, by simp, r, hr, hk⟩
      · exact Or.inr ⟨row', by simp [hrow'], hr'⟩
    · rintro (hs | ⟨row', hrow', hr'⟩)
      · exact Or.inl (Or.inl hs)
      · rcases List.mem_cons.mp hrow' with heq | hmem
        · subst heq
          exact Or.inl (Or.inr hr')
        · exact Or.inr ⟨row', hmem, hr'⟩

/-- C3 (corrected): a 9-field data row at index `i` is flagged
"Duplicate record" iff some earlier 9-field row of the same file joins to
the same underscore-separated key string
`patientId_trialCode_drugCode_startDate`; in particular the first
occurrence of a key is never flagged. -/
theorem duplicate_flag_iff_equal_join_key (rows : List (List String)) (i : Nat)
    (row : List String) (r : Rec9)
    (_hrow : rows.get? i = some row) (hf : rowFields? row = some r) :
    ("Duplicate record" ∈ recordErrorsOfRow (seenBefore rows i) row ↔
      ∃ prev ∈ rows.take i, ∃ p, rowFields? prev = some p ∧
        recordKey p = recordKey r) := by
  unfold recordErrorsOfRow seenBefore
  rw [hf, dup_mem_recordErrors, mem_foldl_stepSeen]
  simp

/-- Witness for C3's corrected statement at the two colliding rows of the
counterexample file. -/
theorem duplicate_flag_iff_equal_join_key_witness :
    ("Duplicate record" ∈ recordErrorsOfRow
        (seenBefore [["P_1", "T", "D", "100", "2024-01-01", "2024-06-01", "Improved", "None", "A"],
                     ["P", "1_T", "D", "100", "2024-01-01", "2024-06-01", "Improved", "None", "A"]] 1)
        ["P", "1_T", "D", "100", "2024-01-01", "2024-06-01", "Improved", "None", "A"] ↔
      ∃ prev ∈ [["P_1", "T", "D", "100", "2024-01-01", "2024-06-01", "Improved", "None", "A"],
                ["P", "1_T", "D", "100", "2024-01-01", "2024-06-01", "Improved", "None", "A"]].take 1,
        ∃ p, rowFields? prev = some p ∧
          recordKey p = recordKey ⟨"P", "1_T", "D", "100", "2024-01-01", "2024-06-01",
            "Improved", "None", "A"⟩) :=
  duplicate_flag_iff_equal_join_key _ 1 _ _ rfl rfl

/-- C3 counterexample: the claim as stated — rows with distinct identity
4-tuples are never flagged as duplicates — fails: the two rows below have
distinct `(patientId, trialCode, drugCode, startDate)` tuples yet the
second is flagged "Duplicate record", because both join to the key string
"P_1_T_D_2024-01-01". -/
theorem duplicate_distinct_tuple_counterexample :
    validate_csv_content (.rows [expected_fields,
      ["P_1", "T", "D", "100", "2024-01-01", "2024-06-01", "Improved", "None", "A"],
      ["P", "1_T", "D", "100", "2024-01-01", "2024-06-01", "Improved", "None", "A"]])
      = (false, ["Row 3: Duplicate record"], 1) ∧
    (("P_1", "T", "D", "2024-01-01") : String × String × String × String)
      ≠ ("P", "1_T", "D", "2024-01-01") := by
  refine ⟨by decide, by decide⟩

/-! ## C8 — the processed-file ledger

`"\n".join` and `str.splitlines` are mutually inverse on lists of names
that are nonempty and free of line-break characters — which every filename
the pipeline marks is.  They are *not* inverse in general: the empty name
round-trips to the empty set, refuting the claim as universally stated. -/

/-- Unfolding step of `splitlinesAux` for an ordinary character. -/
theorem splitlinesAux_cons_nobreak (c : Char) (cs acc : List Char)
    (hc : isLineBreak c = false) :
    splitlinesAux (c :: cs) acc = splitlinesAux cs (c :: acc) := by
  have hr : c ≠ '\r' := by rintro rfl; exact absurd hc (by decide)
  cases cs with
  | nil => simp [splitlinesAux, hc, hr]
  | cons c2 cs2 => simp [splitlinesAux, hc, hr]

/-- A break-free block is consumed into the accumulator unchanged. -/
theorem splitlinesAux_append_nobreak (l : List Char)
    (hl : ∀ c ∈ l, isLineBreak c = false) (cs acc : List Char) :
    splitlinesAux (l ++ cs) acc = splitlinesAux cs (l.reverse ++ acc) := by
  induction l generalizing acc with
  | nil => simp
  | cons c rest ih =>
    rw [List.cons_append, splitlinesAux_cons_nobreak c _ _ (hl c (by simp)),
      ih (fun x hx => hl x (by simp [hx]))]
    simp

/-- `splitlines (join l) = l` for names that are nonempty and contain no
line-break character. -/
theorem pySplitlines_pyJoinNewline (l : List String)
    (h : ∀ x ∈ l, x ≠ "" ∧ ∀ c ∈ x.data, isLineBreak c = false) :
    pySplitlines (pyJoinNewline l) = l := by
  induction l with
  | nil => rfl
  | cons x rest ih =>
    obtain ⟨hx, hxc⟩ := h x (by simp)
    have hxd : x.data ≠ [] := fun hd => hx (by cases x; simp_all)
    cases rest with
    | nil =>
      show pySplitlines x = [x]
      unfold pySplitlines
      have := splitlinesAux_append_nobreak x.data hxc [] []
      rw [List.append_nil] at this
      rw [this]
      have hne : x.data.reverse ++ [] ≠ [] := by simp [hxd]
      simp only [splitlinesAux, if_neg hne]
      simp
    | cons y rest2 =>
      have hjoin : pyJoinNewline (x :: y :: rest2) = x ++ "\n" ++ pyJoinNewline (y :: rest2) := rfl
      unfold pySplitlines
      rw [hjoin, String.data_append, String.data_append]
      have hnl : ("\n" : String).data = ['\n'] := rfl
      rw [hnl, List.append_assoc, splitlinesAux_append_nobreak x.data hxc _ []]
      have hstep : splitlinesAux (['\n'] ++ (pyJoinNewline (y :: rest2)).data)
          (x.data.reverse ++ []) = (x.data.reverse ++ []).reverse ::
            splitlinesAux (pyJoinNewline (y :: rest2)).data [] := rfl
      rw [hstep]
      have ihr := ih (fun z hz => h z (by simp [hz]))
      unfold pySplitlines at ihr
      rw [List.map_cons]
      rw [ihr]
      simp

/-- C8 (corrected): for names that are nonempty and contain no line-break
character — true of every name the pipeline writes — `markProcessed` is
idempotent, the persisted sidecar text holds each name exactly once, and
reloading the persisted text reconstructs exactly the in-memory set. -/
theorem ledger_idempotent_and_roundtrip (s : Finset String) (name : String)
    (h : ∀ n ∈ insert name s, n ≠ "" ∧ ∀ c ∈ n.data, isLineBreak c = false) :
    mark_processed (mark_processed s name).1 name = mark_processed s name ∧
    load_processed (some (mark_processed s name).2) = (mark_processed s name).1 ∧
    (pySplitlines (mark_processed s name).2).count name = 1 := by
  have hsortmem : ∀ x ∈ (insert name s).sort (· ≤ ·), x ∈ insert name s := by
    intro x hx
    exact (Finset.mem_sort _).mp hx
  have hsplit : pySplitlines (saveText (insert name s)) = (insert name s).sort (· ≤ ·) := by
    unfold saveText
    exact pySplitlines_pyJoinNewline _ (fun x hx => h x (hsortmem x hx))
  refine ⟨?_, ?_, ?_⟩
  · unfold mark_processed
    rw [Finset.insert_idem]
  · show load_processed (some (saveText (insert name s))) = insert name s
    show (pySplitlines (saveText (insert name s))).toFinset = insert name s
    rw [hsplit]
    exact Finset.sort_toFinset _ _
  · show (pySplitlines (saveText (insert name s))).count name = 1
    rw [hsplit]
    exact List.count_eq_one_of_mem (Finset.sort_nodup _ _)
      ((Finset.mem_sort _).mpr (Finset.mem_insert_self name s))

/-- Witness for C8's corrected statement at a fresh ledger and a real
pipeline filename. -/
theorem ledger_idempotent_and_roundtrip_witness :
    mark_processed (mark_processed ∅ "CLINICALDATA_20240101120000.CSV").1
        "CLINICALDATA_20240101120000.CSV"
      = mark_processed ∅ "CLINICALDATA_20240101120000.CSV" ∧
    load_processed (some (mark_processed ∅ "CLINICALDATA_20240101120000.CSV").2)
      = (mark_processed ∅ "CLINICALDATA_20240101120000.CSV").1 ∧
    (pySplitlines (mark_processed ∅ "CLINICALDATA_20240101120000.CSV").2).count
        "CLINICALDATA_20240101120000.CSV" = 1 :=
  ledger_idempotent_and_roundtrip ∅ "CLINICALDATA_20240101120000.CSV" (by decide)

/-- C8 counterexample: the claim as universally stated fails for the empty
name: after `markProcessed("")` (twice — idempotence itself holds) the
sidecar text is the empty string, and reloading it yields the empty set,
not the one-element in-memory set. -/
theorem ledger_roundtrip_counterexample :
    load_processed (some (mark_processed (mark_processed ∅ "").1 "").2)
      ≠ (mark_processed (mark_processed ∅ "").1 "").1 := by
  intro h
  have h1 : (mark_processed (mark_processed ∅ "").1 "").1 = {""} := by
    unfold mark_processed
    simp
  have hsort : ({""} : Finset String).sort (· ≤ ·) = [""] := Finset.sort_singleton _ ""
  have h2 : (mark_processed (mark_processed ∅ "").1 "").2 = "" := by
    unfold mark_processed saveText
    simp only []
    rw [show insert "" ((insert "" (∅ : Finset String))) = {""} by simp, hsort]
    rfl
  rw [h1, h2] at h
  have h3 : load_processed (some "") = (∅ : Finset String) := rfl
  rw [h3] at h
  exact Finset.singleton_ne_empty "" h.symm

/-! ## C4 — the filename matcher

Correctness of the combinator matcher in terms of string decomposition,
and the `$` quirk: `re.match(r'^...$', s)` also succeeds when `s` carries
one trailing newline after the pattern. -/

/-- `caselessEqList` against the empty pattern forces the empty input. -/
theorem caselessEqList_nil_iff (p : List Char) :
    caselessEqList p [] = true ↔ p = [] := by
  cases p <;> simp [caselessEqList]

/-- `stripCaseless` succeeds exactly on inputs that start with a caseless
copy of the literal. -/
theorem stripCaseless_eq_some_iff (lit : List Char) (cs r : List Char) :
    stripCaseless lit cs = some r ↔
      ∃ p, caselessEqList p lit = true ∧ cs = p ++ r := by
  induction lit generalizing cs with
  | nil =>
    simp only [stripCaseless, Option.some.injEq]
    constructor
    · rintro rfl
      exact ⟨[], rfl, rfl⟩
    · rintro ⟨p, hp, hc⟩
      rw [(caselessEqList_nil_iff p).mp hp] at hc
      simp [hc]
  | cons pc lit ih =>
    cases cs with
    | nil =>
      simp only [stripCaseless]
      constructor
      · intro h
        exact absurd h (by simp)
      · rintro ⟨p, hp, hc⟩
        cases p with
        | nil => simp [caselessEqList] at hp
        | cons a as => simp at hc
    | cons c cs2 =>
      simp only [stripCaseless]
      by_cases hc : charCaseless c pc
      · rw [if_pos hc, ih]
        constructor
        · rintro ⟨p, hp, he⟩
          exact ⟨c :: p, by simp [caselessEqList, hc, hp], by simp [he]⟩
        · rintro ⟨p, hp, he⟩
          cases p with
          | nil => simp [caselessEqList] at hp
          | cons a as =>
            simp only [List.cons_append, List.cons.injEq] at he
            obtain ⟨rfl, hcs⟩ := he
            simp only [caselessEqList, Bool.and_eq_true] at hp
            exact ⟨as, hp.2, hcs⟩
      · rw [if_neg hc]
        constructor
        · intro h
          exact absurd h (by simp)
        · rintro ⟨p, hp, he⟩
          cases p with
          | nil => simp [caselessEqList] at hp
          | cons a as =>
            simp only [List.cons_append, List.cons.injEq] at he
            obtain ⟨rfl, -⟩ := he
            simp only [caselessEqList, Bool.and_eq_true] at hp
            exact absurd hp.1 hc

/-- `takeDigitsRe` succeeds exactly on inputs that start with `n`
digits. -/
theorem takeDigitsRe_eq_some_iff (n : Nat) (cs r : List Char) :
    takeDigitsRe n cs = some r ↔
      ∃ d, d.length = n ∧ (∀ c ∈ d, c.isDigit = true) ∧ cs = d ++ r := by
  induction n generalizing cs with
  | zero =>
    simp only [takeDigitsRe, Option.some.injEq]
    constructor
    · rintro rfl
      exact ⟨[], rfl, by simp, rfl⟩
    · rintro ⟨d, hd, -, hc⟩
      rw [List.length_eq_zero.mp hd] at hc
      simp [hc]
  | succ n ih =>
    cases cs with
    | nil =>
      simp only [takeDigitsRe]
      constructor
      · intro h
        exact absurd h (by simp)
      · rintro ⟨d, hd, -, hc⟩
        cases d with
        | nil => simp at hd
        | cons a as => simp at hc
    | cons c cs2 =>
      simp only [takeDigitsRe]
      by_cases hdig : c.isDigit
      · rw [if_pos hdig, ih]
        constructor
        · rintro ⟨d, hd, hdd, he⟩
          refine ⟨c :: d, by simp [hd], ?_, by simp [he]⟩
          intro x hx
          rcases List.mem_cons.mp hx with rfl | hmem
          · exact hdig
          · exact hdd x hmem
        · rintro ⟨d, hd, hdd, he⟩
          cases d with
          | nil => simp at hd
          | cons a as =>
            simp only [List.cons_append, List.cons.injEq] at he
            obtain ⟨rfl, hcs⟩ := he
            exact ⟨as, by simpa using hd, fun x hx => hdd x (by simp [hx]), hcs⟩
      · rw [if_neg hdig]
        constructor
        · intro h
          exact absurd h (by simp)
        · rintro ⟨d, hd, hdd, he⟩
          cases d with
          | nil => simp at hd
          | cons a as =>
            simp only [List.cons_append, List.cons.injEq] at he
            obtain ⟨rfl, -⟩ := he
            exact absurd (hdd c (by simp)) (by simpa using hdig)

/-- The combinator matcher succeeds exactly on inputs that decompose into
a caseless prefix, 14 digits, a caseless extension, and a remainder the
end anchor accepts. -/
theorem matchesCore_iff (cs : List Char) (endAnchor : List Char → Bool) :
    matchesCore cs endAnchor = true ↔
      ∃ p d e r, caselessEqList p "CLINICALDATA_".toList = true ∧
        d.length = 14 ∧ (∀ c ∈ d, c.isDigit = true) ∧
        caselessEqList e ".CSV".toList = true ∧ endAnchor r = true ∧
        cs = p ++ (d ++ (e ++ r)) := by
  unfold matchesCore
  constructor
  · intro h
    split at h
    · simp at h
    · rename_i r1 h1
      split at h
      · simp at h
      · rename_i r2 h2
        split at h
        · simp at h
        · rename_i r3 h3
          obtain ⟨p, hp, hcs⟩ := (stripCaseless_eq_some_iff _ _ _).mp h1
          obtain ⟨d, hd, hdig, hr1⟩ := (takeDigitsRe_eq_some_iff _ _ _).mp h2
          obtain ⟨e, he, hr2⟩ := (stripCaseless_eq_some_iff _ _ _).mp h3
          exact ⟨p, d, e, r3, hp, hd, hdig, he, h, by rw [hcs, hr1, hr2]⟩
  · rintro ⟨p, d, e, r, hp, hd, hdig, he, hend, rfl⟩
    have hs1 : stripCaseless "CLINICALDATA_".toList (p ++ (d ++ (e ++ r))) = some (d ++ (e ++ r)) :=
      (stripCaseless_eq_some_iff _ _ _).mpr ⟨p, hp, rfl⟩
    have hs2 : takeDigitsRe 14 (d ++ (e ++ r)) = some (e ++ r) :=
      (takeDigitsRe_eq_some_iff _ _ _).mpr ⟨d, hd, hdig, rfl⟩
    have hs3 : stripCaseless ".CSV".toList (e ++ r) = some r :=
      (stripCaseless_eq_some_iff _ _ _).mpr ⟨e, he, rfl⟩
    simp only [hs1, hs2, hs3]
    exact hend

/-- C4 (corrected): the matcher accepts a string iff it is, anchored and
case-insensitively, `CLINICALDATA_` + 14 digits + `.CSV` — either exactly,
or followed by one trailing newline character, which Python's `$` also
accepts.  (`specFilenameMatchL` is the spec's strict reading, with nothing
after the extension.) -/
theorem filename_pattern_iff_spec_or_trailing_newline (s : String) :
    validate_filename_pattern s = true ↔
      (specFilenameMatchL s.toList = true ∨
        ∃ core, s.toList = core ++ ['\n'] ∧ specFilenameMatchL core = true) := by
  unfold validate_filename_pattern specFilenameMatchL
  constructor
  · intro h
    obtain ⟨p, d, e, r, hp, hd, hdig, he, hend, hcs⟩ := (matchesCore_iff _ _).mp h
    have hr : r = [] ∨ r = ['\n'] := by simpa [pyDollar] using hend
    rcases hr with rfl | rfl
    · left
      exact (matchesCore_iff _ _).mpr ⟨p, d, e, [], hp, hd, hdig, he, by simp, hcs⟩
    · right
      refine ⟨p ++ (d ++ e), ?_, ?_⟩
      · rw [hcs]
        simp
      · exact (matchesCore_iff _ _).mpr ⟨p, d, e, [], hp, hd, hdig, he, by simp, by simp⟩
  · rintro (h | ⟨core, hcore, h⟩)
    · obtain ⟨p, d, e, r, hp, hd, hdig, he, hend, hcs⟩ := (matchesCore_iff _ _).mp h
      have hr : r = [] := by simpa using hend
      subst hr
      exact (matchesCore_iff _ _).mpr ⟨p, d, e, [], hp, hd, hdig, he, by simp [pyDollar], hcs⟩
    · obtain ⟨p, d, e, r, hp, hd, hdig, he, hend, hcs⟩ := (matchesCore_iff _ _).mp h
      have hr : r = [] := by simpa using hend
      subst hr
      refine (matchesCore_iff _ _).mpr ⟨p, d, e, ['\n'], hp, hd, hdig, he, by simp [pyDollar], ?_⟩
      rw [hcore, hcs]
      simp

/-- C4 counterexample: the claim as stated — `matches(s)` true only for
exact-form strings with no extra characters — fails at the string with a
trailing newline: the code's matcher accepts it while the spec's strict
pattern rejects it (and accepts the string without the newline). -/
theorem filename_trailing_newline_counterexample :
    validate_filename_pattern "CLINICALDATA_00000000000000.CSV\n" = true ∧
    specFilenameMatch "CLINICALDATA_00000000000000.CSV\n" = false ∧
    specFilenameMatch "CLINICALDATA_00000000000000.CSV" = true := by
  refine ⟨by decide, by decide, by decide⟩

/-! ## C2 — archive naming

`str.replace` is case-sensitive, so
`filename.replace('.CSV', '').replace('.csv', '')` strips the extension
only when it is spelled exactly `.CSV` or `.csv`; the matcher, being
case-insensitive, also accepts the six mixed-case spellings, whose
extension then survives into the archive name. -/

/-- One cons step of `isPrefixOf`. -/
theorem isPrefixOf_cons_eq (a b : Char) (as bs : List Char) :
    (a :: as).isPrefixOf (b :: bs) = (a == b && as.isPrefixOf bs) := rfl

/-- A dot-initial pattern never occurs in a dot-free string. -/
theorem removeAllGo_of_no_dot (pt s : List Char) (fuel : Nat)
    (hs : ∀ c ∈ s, c ≠ '.') (hf : s.length ≤ fuel) :
    removeAllGo ('.' :: pt) fuel s = s := by
  induction s generalizing fuel with
  | nil => cases fuel <;> rfl
  | cons c rest ih =>
    cases fuel with
    | zero => simp at hf
    | succ f =>
      have hc : c ≠ '.' := hs c (by simp)
      have hpre : (('.' :: pt).isPrefixOf (c :: rest)) = false := by
        rw [isPrefixOf_cons_eq]
        simp [Ne.symm hc]
      simp only [removeAllGo]
      rw [if_neg (fun hcond => by rw [hpre] at hcond; exact absurd hcond.2 (by simp))]
      rw [ih f (fun x hx => hs x (by simp [hx])) (by simp at hf; omega)]

/-- Deleting the single dot-initial occurrence: the pattern placed between
two dot-free blocks is removed and the blocks are joined. -/
theorem removeAllGo_strip (pt s t : List Char) (fuel : Nat)
    (hs : ∀ c ∈ s, c ≠ '.') (ht : ∀ c ∈ t, c ≠ '.')
    (hf : (s ++ ('.' :: pt) ++ t).length ≤ fuel) :
    removeAllGo ('.' :: pt) fuel (s ++ ('.' :: pt) ++ t) = s ++ t := by
  induction s generalizing fuel with
  | nil =>
    simp only [List.nil_append]
    cases fuel with
    | zero => simp at hf
    | succ f =>
      have hpre : ('.' :: pt).isPrefixOf (('.' :: pt) ++ t) = true :=
        List.isPrefixOf_iff_prefix.mpr (List.prefix_append _ _)
      show removeAllGo ('.' :: pt) (f + 1) ('.' :: (pt ++ t)) = t
      simp only [removeAllGo]
      rw [if_pos ⟨by simp, by rw [show ('.' :: (pt ++ t)) = ('.' :: pt) ++ t from rfl, hpre]⟩]
      rw [show ('.' :: pt).length - 1 = pt.length by simp]
      rw [List.drop_left]
      refine removeAllGo_of_no_dot pt t f ht ?_
      simp only [List.nil_append] at hf
      simp at hf
      omega
  | cons c rest ih =>
    cases fuel with
    | zero => simp at hf
    | succ f =>
      have hc : c ≠ '.' := hs c (by simp)
      have hpre : (('.' :: pt).isPrefixOf (c :: (rest ++ ('.' :: pt) ++ t))) = false := by
        rw [isPrefixOf_cons_eq]
        simp [Ne.symm hc]
      show removeAllGo ('.' :: pt) (f + 1) (c :: (rest ++ ('.' :: pt) ++ t)) = c :: (rest ++ t)
      simp only [removeAllGo]
      rw [if_neg (fun hcond => by rw [hpre] at hcond; exact absurd hcond.2 (by simp))]
      rw [ih f (fun x hx => hs x (by simp [hx])) (by simp at hf ⊢; omega)]

/-- A dot-initial pattern that does not head the trailing block, whose
tail is dot-free, occurs nowhere: the string is unchanged. -/
theorem removeAllGo_no_occurrence (pt s r : List Char) (fuel : Nat)
    (hs : ∀ c ∈ s, c ≠ '.') (hpre : ('.' :: pt).isPrefixOf r = false)
    (hrt : ∀ c ∈ r.tail, c ≠ '.') (hf : (s ++ r).length ≤ fuel) :
    removeAllGo ('.' :: pt) fuel (s ++ r) = s ++ r := by
  induction s generalizing fuel with
  | nil =>
    simp only [List.nil_append]
    cases r with
    | nil => cases fuel <;> rfl
    | cons c2 rtail =>
      cases fuel with
      | zero => simp at hf
      | succ f =>
        simp only [removeAllGo]
        rw [if_neg (fun hcond => by rw [hpre] at hcond; exact absurd hcond.2 (by simp))]
        rw [removeAllGo_of_no_dot pt rtail f (fun x hx => hrt x (by simpa using hx))
          (by simp at hf; omega)]
  | cons c rest ih =>
    cases fuel with
    | zero => simp at hf
    | succ f =>
      have hc : c ≠ '.' := hs c (by simp)
      have hpre2 : (('.' :: pt).isPrefixOf (c :: (rest ++ r))) = false := by
        rw [isPrefixOf_cons_eq]
        simp [Ne.symm hc]
      show removeAllGo ('.' :: pt) (f + 1) (c :: (rest ++ r)) = c :: (rest ++ r)
      simp only [removeAllGo]
      rw [if_neg (fun hcond => by rw [hpre2] at hcond; exact absurd hcond.2 (by simp))]
      rw [ih f (fun x hx => hs x (by simp [hx])) (by simp at hf ⊢; omega)]

/-- `removeAll` wrapper of `removeAllGo_of_no_dot`. -/
theorem removeAll_of_no_dot (pt s : List Char) (hs : ∀ c ∈ s, c ≠ '.') :
    removeAll ('.' :: pt) s = s :=
  removeAllGo_of_no_dot pt s s.length hs (le_refl _)

/-- `removeAll` wrapper of `removeAllGo_strip`. -/
theorem removeAll_strip (pt s t : List Char)
    (hs : ∀ c ∈ s, c ≠ '.') (ht : ∀ c ∈ t, c ≠ '.') :
    removeAll ('.' :: pt) (s ++ ('.' :: pt) ++ t) = s ++ t :=
  removeAllGo_strip pt s t _ hs ht (le_refl _)

/-- `removeAll` wrapper of `removeAllGo_no_occurrence`. -/
theorem removeAll_no_occurrence (pt s r : List Char)
    (hs : ∀ c ∈ s, c ≠ '.') (hpre : ('.' :: pt).isPrefixOf r = false)
    (hrt : ∀ c ∈ r.tail, c ≠ '.') :
    removeAll ('.' :: pt) (s ++ r) = s ++ r :=
  removeAllGo_no_occurrence pt s r _ hs hpre hrt (le_refl _)

/-- A pattern of the same length as the leading block, differing from it,
never prefixes the concatenation. -/
theorem isPrefixOf_append_eq_false (pat e r : List Char)
    (hl : pat.length = e.length) (hne : pat ≠ e) :
    pat.isPrefixOf (e ++ r) = false := by
  cases h : pat.isPrefixOf (e ++ r)
  · rfl
  · have h2 : pat <+: e ++ r := List.isPrefixOf_iff_prefix.mp h
    have h3 : pat = (e ++ r).take pat.length := List.prefix_iff_eq_take.mp h2
    rw [hl, List.take_left] at h3
    exact absurd h3 hne

/-- A character caselessly equal to a pattern character whose lower case
is not `'.'` is itself not `'.'`. -/
theorem char_ne_dot_of_caseless {c pc : Char} (h : charCaseless c pc = true)
    (hpc : lowerAscii pc ≠ '.') : c ≠ '.' := by
  rintro rfl
  have h2 : lowerAscii '.' = lowerAscii pc := by simpa [charCaseless] using h
  rw [show lowerAscii '.' = '.' from by decide] at h2
  exact hpc h2.symm

/-- A caseless copy of a literal none of whose lower-cased characters is
`'.'` contains no `'.'`. -/
theorem mem_ne_dot_of_caselessEq {p lit : List Char}
    (h : caselessEqList p lit = true) (hlit : ∀ x ∈ lit, lowerAscii x ≠ '.') :
    ∀ c ∈ p, c ≠ '.' := by
  induction lit generalizing p with
  | nil =>
    rw [caselessEqList_nil_iff] at h
    subst h
    simp
  | cons x xs ih =>
    cases p with
    | nil => simp
    | cons a as =>
      simp only [caselessEqList, Bool.and_eq_true] at h
      intro c hc
      rcases List.mem_cons.mp hc with rfl | hmem
      · exact char_ne_dot_of_caseless h.1 (hlit x (by simp))
      · exact ih h.2 (fun y hy => hlit y (by simp [hy])) c hmem

/-- C2 (corrected): for every filename the matcher accepts, the name
decomposes as caseless prefix + 14 digits + caseless extension
(+ possibly the `$`-anchor's trailing newline), and the archive name is
`<base-without-extension>_<date>.CSV` exactly when the extension is
spelled `.CSV` or `.csv`; for the other case spellings the matcher
accepts (e.g. `.Csv`), `str.replace` removes nothing and the archive name
is `<fullOriginalName>_<date>.CSV`. -/
theorem archive_name_of_matched (s : String) (current_date : List Char)
    (h : validate_filename_pattern s = true) :
    ∃ p d e r, s.toList = p ++ (d ++ (e ++ r)) ∧ (r = [] ∨ r = ['\n']) ∧
      caselessEqList e ".CSV".toList = true ∧
      archive_filename s.toList current_date =
        (if e = ".CSV".toList ∨ e = ".csv".toList then (p ++ d) ++ r else s.toList)
          ++ "_".toList ++ current_date ++ ".CSV".toList := by
  obtain ⟨p, d, e, r, hp, hd, hdig, he, hend, hcs⟩ :=
    (matchesCore_iff s.toList pyDollar).mp h
  have hr : r = [] ∨ r = ['\n'] := by simpa [pyDollar] using hend
  have hpd : ∀ c ∈ p, c ≠ '.' :=
    mem_ne_dot_of_caselessEq hp (by decide)
  have hdd : ∀ c ∈ d, c ≠ '.' := by
    intro c hc hdot
    have h2 := hdig c hc
    rw [hdot] at h2
    exact absurd h2 (by decide)
  have hrd : ∀ c ∈ r, c ≠ '.' := by
    rcases hr with rfl | rfl
    · simp
    · intro c hc
      rw [List.mem_singleton.mp hc]
      decide
  have hext : (".CSV".toList) = ['.', 'C', 'S', 'V'] := rfl
  rw [hext] at he
  rcases e with _ | ⟨e1, _ | ⟨e2, _ | ⟨e3, _ | ⟨e4, _ | ⟨e5, etail⟩⟩⟩⟩⟩
  · simp [caselessEqList] at he
  · simp [caselessEqList] at he
  · simp [caselessEqList] at he
  · simp [caselessEqList] at he
  case cons.cons.cons.cons.cons => simp [caselessEqList] at he
  case cons.cons.cons.cons.nil =>
    simp only [caselessEqList, Bool.and_eq_true] at he
    obtain ⟨he1, he2, he3, he4, -⟩ := he
    have hd2 : e2 ≠ '.' := char_ne_dot_of_caseless he2 (by decide)
    have hd3 : e3 ≠ '.' := char_ne_dot_of_caseless he3 (by decide)
    have hd4 : e4 ≠ '.' := char_ne_dot_of_caseless he4 (by decide)
    have hpdd : ∀ c ∈ p ++ d, c ≠ '.' := by
      intro c hc
      rcases List.mem_append.mp hc with hm | hm
      · exact hpd c hm
      · exact hdd c hm
    have hassoc : p ++ (d ++ ([e1, e2, e3, e4] ++ r))
        = (p ++ d) ++ ([e1, e2, e3, e4] ++ r) := by simp
    refine ⟨p, d, [e1, e2, e3, e4], r, hcs, hr, ?_, ?_⟩
    · rw [hext]
      simp [caselessEqList, he1, he2, he3, he4]
    · unfold archive_filename
      by_cases hE1 : [e1, e2, e3, e4] = ".CSV".toList
      · rw [if_pos (Or.inl hE1)]
        have hb1 : removeAll ".CSV".toList s.toList = (p ++ d) ++ r := by
          rw [hcs, hE1, show (".CSV".toList) = '.' :: ['C', 'S', 'V'] from rfl]
          rw [show p ++ (d ++ ('.' :: ['C', 'S', 'V'] ++ r))
            = (p ++ d) ++ ('.' :: ['C', 'S', 'V']) ++ r by simp]
          exact removeAll_strip _ _ _ hpdd hrd
        have hb2 : removeAll ".csv".toList ((p ++ d) ++ r) = (p ++ d) ++ r := by
          rw [show (".csv".toList) = '.' :: ['c', 's', 'v'] from rfl]
          refine removeAll_of_no_dot _ _ ?_
          intro c hc
          rcases List.mem_append.mp hc with hm | hm
          · exact hpdd c hm
          · exact hrd c hm
        rw [hb1, hb2]
      · by_cases hE2 : [e1, e2, e3, e4] = ".csv".toList
        · rw [if_pos (Or.inr hE2)]
          have hb1 : removeAll ".CSV".toList s.toList = s.toList := by
            rw [hcs, hE2]
            rw [show p ++ (d ++ (".csv".toList ++ r)) = (p ++ d) ++ (".csv".toList ++ r) by simp]
            rw [show (".CSV".toList) = '.' :: ['C', 'S', 'V'] from rfl]
            refine removeAll_no_occurrence _ _ _ hpdd ?_ ?_
            · show (('.' :: ['C', 'S', 'V']).isPrefixOf ('.' :: 'c' :: 's' :: 'v' :: r)) = false
              have hCc : ('C' == 'c') = false := by decide
              rw [isPrefixOf_cons_eq, show (['C', 'S', 'V'].isPrefixOf ('c' :: 's' :: 'v' :: r))
                = ('C' == 'c' && ['S', 'V'].isPrefixOf ('s' :: 'v' :: r)) from rfl, hCc]
              simp
            · show ∀ c ∈ ('c' :: 's' :: 'v' :: r), c ≠ '.'
              intro c hc
              rcases List.mem_cons.mp hc with rfl | hc
              · decide
              rcases List.mem_cons.mp hc with rfl | hc
              · decide
              rcases List.mem_cons.mp hc with rfl | hc
              · decide
              exact hrd c hc
          have hb2 : removeAll ".csv".toList s.toList = (p ++ d) ++ r := by
            rw [hcs, hE2, show (".csv".toList) = '.' :: ['c', 's', 'v'] from rfl]
            rw [show p ++ (d ++ ('.' :: ['c', 's', 'v'] ++ r))
              = (p ++ d) ++ ('.' :: ['c', 's', 'v']) ++ r by simp]
            exact removeAll_strip _ _ _ hpdd hrd
          rw [hb1, hb2]
        · rw [if_neg (not_or.mpr ⟨hE1, hE2⟩)]
          have htail : ∀ c ∈ [e2, e3, e4] ++ r, c ≠ '.' := by
            intro c hc
            rcases List.mem_append.mp hc with hm | hm
            · rcases List.mem_cons.mp hm with rfl | hm
              · exact hd2
              rcases List.mem_cons.mp hm with rfl | hm
              · exact hd3
              rcases List.mem_cons.mp hm with rfl | hm
              · exact hd4
              simp at hm
            · exact hrd c hm
          have hb1 : removeAll ".CSV".toList s.toList = s.toList := by
            rw [hcs, hassoc, show (".CSV".toList) = '.' :: ['C', 'S', 'V'] from rfl]
            refine removeAll_no_occurrence _ _ _ hpdd ?_ htail
            refine isPrefixOf_append_eq_false _ _ r (by simp) ?_
            intro hh
            exact hE1 (by rw [← hh]; rfl)
          have hb2 : removeAll ".csv".toList s.toList = s.toList := by
            rw [hcs, hassoc, show (".csv".toList) = '.' :: ['c', 's', 'v'] from rfl]
            refine removeAll_no_occurrence _ _ _ hpdd ?_ htail
            refine isPrefixOf_append_eq_false _ _ r (by simp) ?_
            intro hh
            exact hE2 (by rw [← hh]; rfl)
          rw [hb1, hb2]

/-- Witness for C2's corrected statement at a lowercase-extension name. -/
theorem archive_name_of_matched_witness :
    ∃ p d e r, ("CLINICALDATA_00000000000000.csv" : String).toList
        = p ++ (d ++ (e ++ r)) ∧ (r = [] ∨ r = ['\n']) ∧
      caselessEqList e ".CSV".toList = true ∧
      archive_filename ("CLINICALDATA_00000000000000.csv" : String).toList "20240102".toList =
        (if e = ".CSV".toList ∨ e = ".csv".toList then (p ++ d) ++ r
         else ("CLINICALDATA_00000000000000.csv" : String).toList)
          ++ "_".toList ++ "20240102".toList ++ ".CSV".toList :=
  archive_name_of_matched "CLINICALDATA_00000000000000.csv" "20240102".toList (by decide)

/-- C2 counterexample: the claim as stated — extension removed for *every*
case variant the matcher accepts — fails at `.Csv`: the file is accepted
and archived, but the archive name keeps the original extension
(`..._00000000000000.Csv_20240102.CSV`), not the claimed
`..._00000000000000_20240102.CSV`. -/
theorem archive_name_counterexample :
    validate_filename_pattern "CLINICALDATA_00000000000000.Csv" = true ∧
    processFile ∅ "CLINICALDATA_00000000000000.Csv" (.rows [expected_fields])
        "20240102".toList
      = (.archived 0,
         [.download "CLINICALDATA_00000000000000.Csv",
          .moveToArchive "CLINICALDATA_00000000000000.Csv"
            "CLINICALDATA_00000000000000.Csv_20240102.CSV",
          .markProcessed "CLINICALDATA_00000000000000.Csv"],
         {"CLINICALDATA_00000000000000.Csv"}) ∧
    "CLINICALDATA_00000000000000.Csv_20240102.CSV"
      ≠ "CLINICALDATA_00000000000000_20240102.CSV" := by
  refine ⟨by decide, by decide, by decide⟩

end Helix
